import Mathlib

/-!
Verification of the Obsidian AI Title Generator plugin.

The definitions below are a shallow embedding of the plugin's TypeScript
source (the current multi-provider revision: `generateTitle`, `getApiKey`,
`getProviderName`, `sanitizeFileName`, `makeAPIRequest`, and the response
parsing inside `callAnthropicAPI`).  JavaScript strings are modelled as
`String`/`List Char`, JSON values as an inductive `Json` type, member and
index access that may yield `undefined` as `Option Json`, and the
side-effects of `generateTitle` (notifications, reading the document,
issuing the HTTP request, renaming the file) as an explicit event trace.
-/

namespace AITitle

/-! ### The filename sanitizer (`sanitizeFileName`) -/

/-- The character class removed by `sanitizeFileName`'s first `replace`:
the regex `[\\/:*?"<>|]` (34 is the double-quote character). -/
def isInvalidFileChar (c : Char) : Bool :=
  c = '\\' || c = '/' || c = ':' || c = '*' || c = '?' ||
  c.toNat = 34 || c = '<' || c = '>' || c = '|'

/-- `fileName.replace(/[\\/:*?"<>|]/g, '')`: delete every invalid character. -/
def removeInvalid (l : List Char) : List Char :=
  l.filter (fun c => !isInvalidFileChar c)

/-- `fileName.replace(/\.\./g, '.')`: the JS global replace scans left to
right and rewrites each non-overlapping occurrence of `..` to `.` in a
single pass (it does not re-examine the character it just emitted). -/
def collapseDots : List Char → List Char
  | '.' :: '.' :: rest => '.' :: collapseDots rest
  | c :: rest => c :: collapseDots rest
  | [] => []

/-- The JavaScript `String.prototype.trim` whitespace class (ECMA-262
TrimString: WhiteSpace ∪ LineTerminator), by code point. -/
def isJsWhitespace (c : Char) : Bool :=
  c.toNat = 9 || c.toNat = 10 || c.toNat = 11 || c.toNat = 12 ||
  c.toNat = 13 || c.toNat = 32 || c.toNat = 160 || c.toNat = 0x1680 ||
  (0x2000 ≤ c.toNat && c.toNat ≤ 0x200A) || c.toNat = 0x2028 ||
  c.toNat = 0x2029 || c.toNat = 0x202F || c.toNat = 0x205F ||
  c.toNat = 0x3000 || c.toNat = 0xFEFF

/-- `s.trim()`: drop JS whitespace from the front, then from the back. -/
def trimList (l : List Char) : List Char :=
  ((l.dropWhile isJsWhitespace).reverse.dropWhile isJsWhitespace).reverse

/-- `s.trim()` on a `String`. -/
def jsTrim (s : String) : String :=
  String.mk (trimList s.data)

/-- `sanitizeFileName` from the source: remove invalid filename characters,
then rewrite `..` pairs to `.`, then trim. -/
def sanitizeFileName (fileName : String) : String :=
  String.mk (trimList (collapseDots (removeInvalid fileName.data)))

/-! ### JSON values and JavaScript value access -/

/-- A parsed JSON value (`response.json`).  Numbers are modelled as
integers; the claims under verification never exercise fractional
numbers. -/
inductive Json where
  | null
  | bool (b : Bool)
  | num (n : Int)
  | str (s : String)
  | arr (elems : List Json)
  | obj (fields : List (String × Json))

/-- JavaScript truthiness of a defined value: `null`, `false`, `0` and the
empty string are falsy; every object and array is truthy. -/
def truthy : Json → Bool
  | .null => false
  | .bool b => b
  | .num n => n != 0
  | .str s => s != ""
  | .arr _ => true
  | .obj _ => true

/-- Truthiness of a possibly-`undefined` value (`none` = `undefined`). -/
def truthyOpt : Option Json → Bool
  | none => false
  | some v => truthy v

/-- JavaScript member access `v.name` for a base the surrounding source
code has already evaluated for truthiness before the access runs (as in
`makeAPIRequest`, whose `errorData && errorData.error` guard discards the
access result exactly when the base is falsy, so a null base never
reaches the dereference): a field lookup on objects, `undefined` (`none`)
on other values.  Member access whose base may be `null` is modelled by
the crash-aware `jsAccess` below instead. -/
def jsMember : Json → String → Option Json
  | .obj fields, name => fields.lookup name
  | _, _ => none

/-- Result of one general JavaScript property access: accessing any
property of `null` throws a TypeError (and `JSON.parse` can yield the
document `null`, so a response body can be exactly that); otherwise the
property's value, or `undefined` when it is absent (primitive bases are
boxed and carry none of the properties this plugin reads). -/
inductive JsAccess where
  | typeError
  | undefinedValue
  | val (v : Json)

/-- Crash-aware JavaScript member access `base.name`. -/
def jsAccess : Json → String → JsAccess
  | .null, _ => .typeError
  | .obj fields, name =>
    match fields.lookup name with
    | some v => .val v
    | none => .undefinedValue
  | _, _ => .undefinedValue

/-- Crash-aware JavaScript index access `base[i]`: element access on
arrays, single character access on strings, the numeric-keyed field on
objects, a TypeError on `null`, `undefined` otherwise. -/
def jsAccessIdx : Json → Nat → JsAccess
  | .null, _ => .typeError
  | .arr elems, i =>
    match elems.get? i with
    | some v => .val v
    | none => .undefinedValue
  | .str s, i =>
    match s.data.get? i with
    | some c => .val (.str (String.mk [c]))
    | none => .undefinedValue
  | .obj fields, i =>
    match fields.lookup (toString i) with
    | some v => .val v
    | none => .undefinedValue
  | _, _ => .undefinedValue

mutual
/-- JavaScript string conversion as used by template literals, for the
values a JSON body can contain (arrays join elements with `,`, rendering
`null` elements as empty; objects print as `[object Object]`). -/
def jsDisplay : Json → String
  | .null => "null"
  | .bool true => "true"
  | .bool false => "false"
  | .num n => toString n
  | .str s => s
  | .arr elems => jsDisplayArr elems
  | .obj _ => "[object Object]"

def jsDisplayArr : List Json → String
  | [] => ""
  | [.null] => ""
  | [v] => jsDisplay v
  | .null :: rest => "," ++ jsDisplayArr rest
  | v :: rest => jsDisplay v ++ "," ++ jsDisplayArr rest
end

/-! ### Response parsing (`callAnthropicAPI`, lines 278-283)

The source reads

  const data = response.json;
  if (!data.content || !data.content[0] || !data.content[0].text) {
    throw new Error('Unexpected response format from Anthropic API');
  }
  return data.content[0].text.trim();
-/

/-- Outcome of the Anthropic response-parsing fragment: the extracted
title, the explicitly thrown format `Error`, a TypeError from
dereferencing a property of `null`, or a TypeError from calling `.trim()`
on a truthy value that is not a string. -/
inductive ParseOutcome where
  | ok (title : String)
  | formatError
  | nullDereference
  | typeCrash
deriving DecidableEq

/-- The response-parsing portion of `callAnthropicAPI`, following the
JavaScript evaluation order of the short-circuited guard: `data.content`
is accessed first, and when `data` is the JSON document `null` that very
access null-dereferences.  Every later access happens only after its base
passed a truthiness check, so its base is never `null` (those
`.nullDereference` arms are unreachable, but keep each access locally
faithful). -/
def parseAnthropicResponse (data : Json) : ParseOutcome :=
  match jsAccess data "content" with
  | .typeError => .nullDereference
  | .undefinedValue => .formatError
  | .val content =>
    if truthy content then
      match jsAccessIdx content 0 with
      | .typeError => .nullDereference
      | .undefinedValue => .formatError
      | .val first =>
        if truthy first then
          match jsAccess first "text" with
          | .typeError => .nullDereference
          | .undefinedValue => .formatError
          | .val text =>
            if truthy text then
              match text with
              | .str s => .ok (jsTrim s)
              | _ => .typeCrash
            else .formatError
        else .formatError
    else .formatError

/-! ### `makeAPIRequest` (lines 375-399) -/

/-- The error message assembled by `makeAPIRequest` for a non-200 status:
starts with the status code and appends the provider-supplied error text
when the body carries a truthy `error` field (string form, or an object
whose `message` field is truthy). -/
def apiErrorMessage (status : Nat) (errorData : Json) : String :=
  let base := "API request failed with status " ++ toString status
  if truthy errorData && truthyOpt (jsMember errorData "error") then
    match jsMember errorData "error" with
    | some (.str s) => base ++ ": " ++ s
    | some e =>
      match jsMember e "message" with
      | some m => if truthy m then base ++ ": " ++ jsDisplay m else base
      | none => base
    | none => base
  else base

/-- `makeAPIRequest`, given the HTTP status and parsed JSON body of the
response: a non-200 status throws the assembled error message, a 200
status returns the response body. -/
def makeAPIRequest (status : Nat) (body : Json) : Except String Json :=
  if status != 200 then .error (apiErrorMessage status body) else .ok body

/-! ### Settings and provider selection -/

/-- The `ProviderType` enum. -/
inductive ProviderType where
  | anthropic
  | openai
  | gemini
deriving DecidableEq

/-- The `AITitlePluginSettings` record. -/
structure AITitlePluginSettings where
  provider : ProviderType
  anthropicApiKey : String
  openaiApiKey : String
  geminiApiKey : String
  maxTitleLength : Nat
  anthropicModel : String
  openaiModel : String
  geminiModel : String
  customPrompt : String

/-- `getApiKey`: the key of the configured provider. -/
def getApiKey (settings : AITitlePluginSettings) : String :=
  match settings.provider with
  | .anthropic => settings.anthropicApiKey
  | .openai => settings.openaiApiKey
  | .gemini => settings.geminiApiKey

/-- `getProviderName`: the display name of the configured provider. -/
def getProviderName (settings : AITitlePluginSettings) : String :=
  match settings.provider with
  | .anthropic => "Anthropic"
  | .openai => "OpenAI"
  | .gemini => "Google Gemini"

/-! ### `file.path.replace(/[^\/]+$/, sanitizedTitle + ".md")`

JavaScript `String.prototype.replace` with a string replacement still
processes `$`-substitution patterns in the replacement (`$$`, `$&`,
backtick and quote forms for the preceding and following context); a `$`
followed by anything else is copied literally, as is a trailing `$`.
The regex `[^\/]+$` matches the final maximal nonempty run of
non-`/` characters; when the path is empty or ends in `/` there is no
match and the path is returned unchanged.
-/

/-- GetSubstitution (ECMA-262): expand the replacement template given the
matched text, the part of the subject before the match and the part after
it.  Code point 96 is the backtick pattern (text before the match), 39 the
quote pattern (text after the match). -/
def expandDollar (matched pre suf : List Char) : List Char → List Char
  | '$' :: c :: rest =>
    if c = '$' then '$' :: expandDollar matched pre suf rest
    else if c = '&' then matched ++ expandDollar matched pre suf rest
    else if c.toNat = 96 then pre ++ expandDollar matched pre suf rest
    else if c.toNat = 39 then suf ++ expandDollar matched pre suf rest
    else '$' :: c :: expandDollar matched pre suf rest
  | c :: rest => c :: expandDollar matched pre suf rest
  | [] => []

/-- The final maximal run of non-`/` characters of the path (the regex
match of `[^\/]+$`, empty when there is no match). -/
def lastSegment (path : String) : List Char :=
  (path.data.reverse.takeWhile (fun c => c != '/')).reverse

/-- The part of the path before the final segment (up to and including the
last `/`). -/
def dirPrefix (path : String) : List Char :=
  (path.data.reverse.dropWhile (fun c => c != '/')).reverse

/-- `path.replace(/[^\/]+$/, repl)`. -/
def replaceLastSegment (path repl : String) : String :=
  if lastSegment path = [] then path
  else String.mk (dirPrefix path ++ expandDollar (lastSegment path) (dirPrefix path) [] repl.data)

/-! ### `generateTitle` as an event trace -/

/-- The observable actions `generateTitle` performs on its collaborators,
in order: posting a notification, reading the editor's text
(`editor.getValue()`), the provider adapter issuing its HTTP request
(`requestUrl` inside `callAnthropicAPI` / `callOpenAIAPI` /
`callGeminiAPI`), and asking the host to rename the file
(`fileManager.renameFile`). -/
inductive Event where
  | notice (msg : String)
  | readDocument
  | httpRequest
  | rename (oldPath newPath : String)
deriving DecidableEq

/-- The environment of one `generateTitle` invocation: the plugin
settings, the active view's file (`view.file`, `none` when no file is
open), the document text, and the outcome the selected provider call
would produce once invoked (`.error msg` models a thrown `Error` with
that message, `.ok title` the returned title). -/
structure GenerateEnv where
  settings : AITitlePluginSettings
  file : Option String
  docText : String
  providerResult : Except String String

/-- `generateTitle`, translated statement by statement into the event
trace it produces: the empty-key guard, `editor.getValue()`, the
missing-file guard, the progress notification, the provider call, and —
only when the returned title is truthy — sanitization, path construction
and the rename request, with the `catch` branch reporting the error
message. -/
def generateTitle (env : GenerateEnv) : List Event :=
  if getApiKey env.settings = "" then
    [.notice ("Please set your " ++ getProviderName env.settings ++ " API key in the settings")]
  else
    .readDocument ::
    match env.file with
    | none => [.notice "No file is currently open"]
    | some path =>
      .notice "Generating title..." ::
      .httpRequest ::
      match env.providerResult with
      | .error msg => [.notice ("Failed to generate title: " ++ msg)]
      | .ok title =>
        if title = "" then []
        else
          [.rename path (replaceLastSegment path (sanitizeFileName title ++ ".md")),
           .notice "Title updated successfully"]

/-- A settings record used by concrete witnesses. -/
def sampleSettings : AITitlePluginSettings :=
  { provider := .anthropic
    anthropicApiKey := "sk-test"
    openaiApiKey := ""
    geminiApiKey := ""
    maxTitleLength := 110
    anthropicModel := "claude-3-7-sonnet-latest"
    openaiModel := "gpt-4o"
    geminiModel := "gemini-1.5-pro"
    customPrompt := "You create concise summaries." }

/-- Environment whose active provider has an empty API key. -/
def envEmptyKey : GenerateEnv :=
  { settings := { sampleSettings with anthropicApiKey := "" }
    file := some "dir/note.md"
    docText := "body"
    providerResult := .ok "T" }

/-- Environment whose provider call fails. -/
def envProviderError : GenerateEnv :=
  { settings := sampleSettings
    file := some "dir/note.md"
    docText := "body"
    providerResult := .error "boom" }

/-- Environment whose provider returns the title `$&`. -/
def envDollarTitle : GenerateEnv :=
  { settings := sampleSettings
    file := some "dir/note.md"
    docText := "body"
    providerResult := .ok "$&" }

/-- Environment whose provider returns the title `???`, which sanitizes
to the empty string. -/
def envAllInvalidTitle : GenerateEnv :=
  { settings := sampleSettings
    file := some "dir/note.md"
    docText := "body"
    providerResult := .ok "???" }

/-- Environment whose provider returns an ordinary title. -/
def envGoodTitle : GenerateEnv :=
  { settings := sampleSettings
    file := some "dir/note.md"
    docText := "body"
    providerResult := .ok "My Note" }

/-- Recognizer for rename events, used to count rename requests. -/
def isRenameEvent : Event → Bool
  | .rename _ _ => true
  | _ => false

/-! ### Helper lemmas about the sanitizer -/

theorem mem_collapseDots {c : Char} {l : List Char} (h : c ∈ collapseDots l) : c ∈ l := by
  induction l using collapseDots.induct with
  | case1 rest ih =>
    simp only [collapseDots, List.mem_cons] at h ⊢
    rcases h with rfl | h
    · exact Or.inl rfl
    · exact Or.inr (Or.inr (ih h))
  | case2 c2 rest hne ih =>
    simp only [collapseDots, List.mem_cons] at h ⊢
    rcases h with rfl | h
    · exact Or.inl rfl
    · exact Or.inr (ih h)
  | case3 => simp [collapseDots] at h

theorem collapseDots_head? (l : List Char) : (collapseDots l).head? = l.head? := by
  induction l using collapseDots.induct with
  | case1 rest ih => simp [collapseDots]
  | case2 c rest hne ih => simp [collapseDots]
  | case3 => simp [collapseDots]

theorem collapseDots_eq_self {l : List Char} (h : ¬ ['.', '.'] <:+: l) :
    collapseDots l = l := by
  induction l using collapseDots.induct with
  | case1 rest ih => exact absurd ⟨[], rest, rfl⟩ h
  | case2 c rest hne ih =>
    have hr : ¬ ['.', '.'] <:+: rest := fun hh => h (List.infix_cons_iff.mpr (Or.inr hh))
    simp [collapseDots, ih hr]
  | case3 => simp [collapseDots]

theorem collapseDots_no_adjacent {l : List Char}
    (h : ¬ ['.', '.', '.'] <:+: l) : ¬ ['.', '.'] <:+: collapseDots l := by
  induction l using collapseDots.induct with
  | case1 rest ih =>
    intro hdd
    simp only [collapseDots] at hdd
    rcases List.infix_cons_iff.mp hdd with hpre | hinf
    · rcases List.cons_prefix_cons.mp hpre with ⟨-, h1⟩
      have hh : (collapseDots rest).head? = some '.' := by
        cases hc : collapseDots rest with
        | nil => rw [hc] at h1; simp at h1
        | cons a t =>
          rw [hc] at h1
          rcases List.cons_prefix_cons.mp h1 with ⟨rfl, -⟩
          rfl
      rw [collapseDots_head?] at hh
      cases rest with
      | nil => simp at hh
      | cons a t =>
        simp only [List.head?_cons, Option.some.injEq] at hh
        subst hh
        exact h ⟨[], t, rfl⟩
    · have hr : ¬ ['.', '.', '.'] <:+: rest := fun hh =>
        h (List.infix_cons_iff.mpr (Or.inr (List.infix_cons_iff.mpr (Or.inr hh))))
      exact ih hr hinf
  | case2 c rest hne ih =>
    intro hdd
    simp only [collapseDots] at hdd
    rcases List.infix_cons_iff.mp hdd with hpre | hinf
    · rcases List.cons_prefix_cons.mp hpre with ⟨rfl, h1⟩
      have hh : (collapseDots rest).head? = some '.' := by
        cases hc : collapseDots rest with
        | nil => rw [hc] at h1; simp at h1
        | cons a t =>
          rw [hc] at h1
          rcases List.cons_prefix_cons.mp h1 with ⟨rfl, -⟩
          rfl
      rw [collapseDots_head?] at hh
      cases rest with
      | nil => simp at hh
      | cons a t =>
        simp only [List.head?_cons, Option.some.injEq] at hh
        exact hne t rfl (by rw [hh])
    · have hr : ¬ ['.', '.', '.'] <:+: rest := fun hh =>
        h (List.infix_cons_iff.mpr (Or.inr hh))
      exact ih hr hinf
  | case3 => simp [collapseDots]

theorem head?_dropWhile_false (p : Char → Bool) {l : List Char} {c : Char}
    (h : (l.dropWhile p).head? = some c) : p c = false := by
  induction l with
  | nil => simp [List.dropWhile] at h
  | cons a t ih =>
    by_cases hp : p a
    · rw [List.dropWhile_cons_of_pos hp] at h
      exact ih h
    · rw [List.dropWhile_cons_of_neg hp] at h
      simp only [List.head?_cons, Option.some.injEq] at h
      subst h
      exact Bool.eq_false_iff.mpr hp

theorem dropWhile_eq_self_of_head (p : Char → Bool) {l : List Char}
    (h : ∀ c, l.head? = some c → p c = false) : l.dropWhile p = l := by
  cases l with
  | nil => rfl
  | cons a t =>
    have := h a rfl
    simp [List.dropWhile_cons, this]

theorem trimList_head {l : List Char} {c : Char}
    (h : (trimList l).head? = some c) : isJsWhitespace c = false := by
  unfold trimList at h
  rw [List.head?_reverse] at h
  rcases hB : (l.dropWhile isJsWhitespace).reverse.dropWhile isJsWhitespace with _ | ⟨a, t⟩
  · rw [hB] at h; simp at h
  · rw [hB] at h
    have hne : (a :: t : List Char) ≠ [] := by simp
    obtain ⟨u, hu⟩ := List.dropWhile_suffix (l := (l.dropWhile isJsWhitespace).reverse)
      (p := isJsWhitespace)
    rw [hB] at hu
    have : (l.dropWhile isJsWhitespace).reverse.getLast? = some c := by
      rw [← hu, List.getLast?_append_of_ne_nil u hne, ← hB, hB, ← h]
    rw [List.getLast?_reverse] at this
    exact head?_dropWhile_false isJsWhitespace this

theorem trimList_reverse_head {l : List Char} {c : Char}
    (h : (trimList l).reverse.head? = some c) : isJsWhitespace c = false := by
  unfold trimList at h
  rw [List.reverse_reverse] at h
  exact head?_dropWhile_false isJsWhitespace h

theorem trimList_idem (l : List Char) : trimList (trimList l) = trimList l := by
  have h1 : (trimList l).dropWhile isJsWhitespace = trimList l :=
    dropWhile_eq_self_of_head _ (fun c hc => trimList_head hc)
  have h2 : (trimList l).reverse.dropWhile isJsWhitespace = (trimList l).reverse :=
    dropWhile_eq_self_of_head _ (fun c hc => trimList_reverse_head hc)
  show ((((trimList l).dropWhile isJsWhitespace).reverse.dropWhile isJsWhitespace)).reverse
      = trimList l
  rw [h1, h2, List.reverse_reverse]

theorem trimList_infix_self (l : List Char) : trimList l <:+: l := by
  have h1 : l.dropWhile isJsWhitespace <:+ l := List.dropWhile_suffix _
  have h2 : (l.dropWhile isJsWhitespace).reverse.dropWhile isJsWhitespace <:+
      (l.dropWhile isJsWhitespace).reverse := List.dropWhile_suffix _
  have h3 : trimList l <+: l.dropWhile isJsWhitespace := by
    unfold trimList
    simpa using h2.reverse
  exact h3.isInfix.trans h1.isInfix

theorem mem_trimList {c : Char} {l : List Char} (h : c ∈ trimList l) : c ∈ l :=
  (trimList_infix_self l).subset h

theorem mem_sanitizeFileName {c : Char} {s : String}
    (h : c ∈ (sanitizeFileName s).data) : isInvalidFileChar c = false := by
  have h1 : c ∈ collapseDots (removeInvalid s.data) := mem_trimList h
  have h2 : c ∈ removeInvalid s.data := mem_collapseDots h1
  have h3 := List.mem_filter.mp h2
  simpa using h3.2

/-! ### Helper lemmas about paths and replacement -/

theorem data_append (a b : String) : (a ++ b).data = a.data ++ b.data := rfl

theorem expandDollar_no_dollar (m pre suf : List Char) {repl : List Char}
    (h : '$' ∉ repl) : expandDollar m pre suf repl = repl := by
  induction repl using expandDollar.induct m pre suf with
  | _ => first
    | rfl
    | simp_all [expandDollar]

theorem path_eq_dirPrefix_append (path : String) :
    path.data = dirPrefix path ++ lastSegment path := by
  unfold dirPrefix lastSegment
  rw [← List.reverse_append, List.takeWhile_append_dropWhile, List.reverse_reverse]

theorem replaceLastSegment_eq (path repl : String)
    (hseg : lastSegment path ≠ []) (hd : '$' ∉ repl.data) :
    replaceLastSegment path repl = String.mk (dirPrefix path ++ repl.data) := by
  unfold replaceLastSegment
  rw [if_neg hseg, expandDollar_no_dollar _ _ _ hd]

/-- Whether a `jsMember` access succeeded implies the base value is an
object, hence truthy. -/
theorem truthy_of_jsMember {body : Json} {k : String} {v : Json}
    (h : jsMember body k = some v) : truthy body = true := by
  cases body <;> simp [jsMember, truthy] at h ⊢

/-! ## The claims -/

/-- Claim C6: for every input string containing any of the characters
`\ / : * ? " < > |`, the output of `sanitizeFileName` contains none of
those characters.  (The conclusion in fact holds for every input; the
hypothesis merely mirrors the claim.) -/
theorem claim_C6_sanitize_removes_invalid (x : String)
    ( _hx : ∃ c ∈ x.data, isInvalidFileChar c = true) :
    ∀ c ∈ (sanitizeFileName x).data, isInvalidFileChar c = false := by
  intro c hc
  exact mem_sanitizeFileName hc

/-- Witness for C6 at the concrete input `a?b*`. -/
theorem claim_C6_witness :
    (∃ c ∈ "a?b*".data, isInvalidFileChar c = true) ∧
    (∀ c ∈ (sanitizeFileName "a?b*").data, isInvalidFileChar c = false) :=
  ⟨by decide, claim_C6_sanitize_removes_invalid "a?b*" (by decide)⟩

/-- Counterexample to claim C4 as stated: the input `...` contains `..`,
yet the sanitized output `..` still contains two adjacent dots, because
the JS global replace rewrites dot pairs in one left-to-right pass instead
of collapsing whole runs. -/
theorem claim_C4_counterexample :
    ['.', '.'] <:+: ("...".data) ∧ ['.', '.'] <:+: (sanitizeFileName "...").data := by
  constructor <;> decide

/-- Claim C4 (amended): the sanitizer rewrites each left-to-right
non-overlapping pair of consecutive dots to a single dot in one pass, so
a run of three or more dots can leave adjacent dots in the output; for
every input containing `..` whose dot runs (after the invalid characters
are removed) never reach length three, the output contains no two
adjacent dots. -/
theorem claim_C4_amended (x : String)
    ( _hx : ['.', '.'] <:+: x.data)
    (h3 : ¬ ['.', '.', '.'] <:+: removeInvalid x.data) :
    ¬ ['.', '.'] <:+: (sanitizeFileName x).data := by
  intro hdd
  have h1 : ['.', '.'] <:+: collapseDots (removeInvalid x.data) :=
    List.IsInfix.trans hdd (trimList_infix_self _)
  exact collapseDots_no_adjacent h3 h1

/-- Witness for C4 (amended) at the concrete input `a..b`. -/
theorem claim_C4_witness :
    (['.', '.'] <:+: "a..b".data) ∧
    (¬ ['.', '.', '.'] <:+: removeInvalid "a..b".data) ∧
    (¬ ['.', '.'] <:+: (sanitizeFileName "a..b").data) :=
  ⟨by decide, by decide, claim_C4_amended "a..b" (by decide) (by decide)⟩

/-- Counterexample to claim C5 as stated: `sanitizeFileName` is not
idempotent; on `...` it yields `..`, and a second application yields `.`. -/
theorem claim_C5_counterexample :
    sanitizeFileName (sanitizeFileName "...") ≠ sanitizeFileName "..." := by decide

/-- Claim C5 (amended): `sanitizeFileName` is idempotent on every input
whose sanitized output contains no two adjacent dots (the only way a
second pass can make further progress is through a remaining `..`). -/
theorem claim_C5_amended (x : String)
    (h : ¬ ['.', '.'] <:+: (sanitizeFileName x).data) :
    sanitizeFileName (sanitizeFileName x) = sanitizeFileName x := by
  have hinv : removeInvalid (sanitizeFileName x).data = (sanitizeFileName x).data :=
    List.filter_eq_self.mpr (fun c hc => by simp [mem_sanitizeFileName hc])
  have hcd : collapseDots (sanitizeFileName x).data = (sanitizeFileName x).data :=
    collapseDots_eq_self h
  have htr : trimList (sanitizeFileName x).data = (sanitizeFileName x).data := by
    show trimList (trimList (collapseDots (removeInvalid x.data))) = _
    rw [trimList_idem]
    rfl
  show String.mk (trimList (collapseDots (removeInvalid (sanitizeFileName x).data)))
      = sanitizeFileName x
  rw [hinv, hcd, htr]

/-- Witness for C5 (amended) at the concrete input `a.b`. -/
theorem claim_C5_witness :
    (¬ ['.', '.'] <:+: (sanitizeFileName "a.b").data) ∧
    sanitizeFileName (sanitizeFileName "a.b") = sanitizeFileName "a.b" :=
  ⟨by decide, claim_C5_amended "a.b" (by decide)⟩

/-- Claim C9: for every well-formed Anthropic-shape response
`{content:[{text: s}]}` with `s` a non-empty string, the parser returns
`s` with surrounding whitespace trimmed. -/
theorem claim_C9_parse_wellformed (s : String) (hs : s ≠ "") :
    parseAnthropicResponse (.obj [("content", .arr [.obj [("text", .str s)]])]) =
      .ok (jsTrim s) := by
  unfold parseAnthropicResponse
  simp [jsAccess, jsAccessIdx, truthy, List.lookup, hs]

/-- Witness for C9 at `s = "Foo bar"`: the parser returns `"Foo bar"`. -/
theorem claim_C9_witness :
    parseAnthropicResponse
        (.obj [("content", .arr [.obj [("text", .str "Foo bar")]])]) =
      .ok (jsTrim "Foo bar")
    ∧ jsTrim "Foo bar" = "Foo bar" :=
  ⟨claim_C9_parse_wellformed "Foo bar" (by decide), by decide⟩

/-- Counterexample to claim C3 as stated: the JSON document `null` is a
valid provider response body in which every segment of the extraction
path is absent, yet the source's very first access `data.content`
dereferences `null` and throws a TypeError — not the response-format
error the claim promises, and exactly the null dereference the claim says
never happens. -/
theorem claim_C3_counterexample :
    parseAnthropicResponse Json.null = .nullDereference
    ∧ ParseOutcome.nullDereference ≠ ParseOutcome.formatError :=
  ⟨rfl, by decide⟩

/-- Claim C3 (amended): whenever an access along the extraction path
`content[0].text` yields `undefined` (no `content` field on a non-`null`
response, an index access past the elements, or no `text` field), the
parser fails with the response-format error and performs no null
dereference; the excluded response `null` instead null-dereferences at
the first access. -/
theorem claim_C3_amended (data : Json)
    (h : jsAccess data "content" = .undefinedValue
       ∨ (∃ content, jsAccess data "content" = .val content
           ∧ jsAccessIdx content 0 = .undefinedValue)
       ∨ (∃ content first, jsAccess data "content" = .val content
           ∧ jsAccessIdx content 0 = .val first
           ∧ jsAccess first "text" = .undefinedValue)) :
    parseAnthropicResponse data = .formatError := by
  unfold parseAnthropicResponse
  rcases h with h | ⟨content, h1, h2⟩ | ⟨content, first, h1, h2, h3⟩
  · rw [h]
  · rw [h1]
    dsimp only
    by_cases ht : truthy content = true
    · rw [if_pos ht, h2]
    · rw [if_neg ht]
  · rw [h1]
    dsimp only
    by_cases ht : truthy content = true
    · rw [if_pos ht, h2]
      dsimp only
      by_cases ht2 : truthy first = true
      · rw [if_pos ht2, h3]
      · rw [if_neg ht2]
    · rw [if_neg ht]

/-- Witness for C3 (amended) at the concrete response `{content: []}` (an
empty `content` array: the index access yields `undefined`). -/
theorem claim_C3_witness :
    (jsAccess (Json.obj [("content", Json.arr [])]) "content" = .val (Json.arr [])
     ∧ jsAccessIdx (Json.arr []) 0 = .undefinedValue)
    ∧ parseAnthropicResponse (Json.obj [("content", Json.arr [])]) = .formatError :=
  ⟨⟨rfl, rfl⟩, claim_C3_amended (Json.obj [("content", Json.arr [])])
    (Or.inr (Or.inl ⟨Json.arr [], rfl, rfl⟩))⟩

/-- A string is an infix of any extension on the left. -/
theorem data_infix_of_append (a b : String) : b.data <:+: (a ++ b).data :=
  ⟨a.data, [], by simp [data_append]⟩

/-- `apiErrorMessage` always extends the base status message. -/
theorem apiErrorMessage_base (status : Nat) (body : Json) : ∃ r : String,
    apiErrorMessage status body =
      "API request failed with status " ++ toString status ++ r := by
  unfold apiErrorMessage
  split
  · split
    · exact ⟨_, String.append_assoc _ _ _⟩
    · split
      · split
        · exact ⟨_, String.append_assoc _ _ _⟩
        · exact ⟨"", by simp⟩
      · exact ⟨"", by simp⟩
    · exact ⟨"", by simp⟩
  · exact ⟨"", by simp⟩

/-- Claim C7: for every non-200 HTTP status, `makeAPIRequest` fails with
the assembled error message; that message contains the numeric status
code, and when the JSON body carries an error envelope — `error` as a
string, or `error` as an object with a string `message` — it also
contains that provider-supplied text. -/
theorem claim_C7_error_message (status : Nat) (body : Json) (hs : status ≠ 200) :
    makeAPIRequest status body = .error (apiErrorMessage status body)
    ∧ (toString status).data <:+: (apiErrorMessage status body).data
    ∧ (∀ s, jsMember body "error" = some (.str s) →
        s.data <:+: (apiErrorMessage status body).data)
    ∧ (∀ e m, jsMember body "error" = some e → (∀ s, e ≠ .str s) →
        jsMember e "message" = some (.str m) →
        m.data <:+: (apiErrorMessage status body).data) := by
  refine ⟨?_, ?_, ?_, ?_⟩
  · unfold makeAPIRequest
    rw [if_pos (bne_iff_ne.mpr hs)]
  · obtain ⟨r, hr⟩ := apiErrorMessage_base status body
    rw [hr]
    exact ⟨"API request failed with status ".data, r.data, by simp [data_append]⟩
  · intro s h
    by_cases hs0 : s = ""
    · subst hs0
      exact List.nil_infix
    · have hb := truthy_of_jsMember h
      have hcond : (truthy body && truthyOpt (jsMember body "error")) = true := by
        rw [hb, h]
        simp [truthyOpt, truthy, hs0]
      unfold apiErrorMessage
      rw [hcond, if_pos rfl, h]
      exact data_infix_of_append _ _
  · intro e m he hnotstr hm
    rcases e with _ | b | n | s | elems | fields
    · simp [jsMember] at hm
    · simp [jsMember] at hm
    · simp [jsMember] at hm
    · exact absurd rfl (hnotstr s)
    · simp [jsMember] at hm
    · have hb := truthy_of_jsMember he
      by_cases hm0 : m = ""
      · subst hm0
        exact List.nil_infix
      · have hcond : (truthy body && truthyOpt (jsMember body "error")) = true := by
          rw [hb, he]
          simp [truthyOpt, truthy]
        unfold apiErrorMessage
        rw [hcond, if_pos rfl, he]
        dsimp only
        rw [hm]
        dsimp only
        have hmt : truthy (Json.str m) = true := by simp [truthy, hm0]
        rw [hmt, if_pos rfl]
        have hjd : jsDisplay (Json.str m) = m := by simp [jsDisplay]
        rw [hjd]
        exact data_infix_of_append _ _

/-- Witness for C7: status 429 with body
`{"error":{"message":"rate limited"}}` produces a message containing both
`429` and `rate limited`. -/
theorem claim_C7_witness :
    makeAPIRequest 429 (Json.obj [("error", Json.obj [("message", Json.str "rate limited")])])
      = .error (apiErrorMessage 429
          (Json.obj [("error", Json.obj [("message", Json.str "rate limited")])]))
    ∧ (toString 429).data <:+: (apiErrorMessage 429
        (Json.obj [("error", Json.obj [("message", Json.str "rate limited")])])).data
    ∧ "rate limited".data <:+: (apiErrorMessage 429
        (Json.obj [("error", Json.obj [("message", Json.str "rate limited")])])).data :=
  ⟨(claim_C7_error_message 429 _ (by decide)).1,
   (claim_C7_error_message 429 _ (by decide)).2.1,
   (claim_C7_error_message 429 _ (by decide)).2.2.2
     (Json.obj [("message", Json.str "rate limited")]) "rate limited" rfl
     (fun s h => Json.noConfusion h) rfl⟩

/-- Claim C2: with an empty API key for the active provider,
`generateTitle` posts only the API-key notice and returns: it never reads
the document text and never lets the provider adapter issue its HTTP
request. -/
theorem claim_C2_empty_key (env : GenerateEnv) (h : getApiKey env.settings = "") :
    generateTitle env =
      [.notice ("Please set your " ++ getProviderName env.settings
        ++ " API key in the settings")]
    ∧ Event.httpRequest ∉ generateTitle env
    ∧ Event.readDocument ∉ generateTitle env := by
  have heq : generateTitle env =
      [.notice ("Please set your " ++ getProviderName env.settings
        ++ " API key in the settings")] := by
    unfold generateTitle
    rw [if_pos h]
  refine ⟨heq, ?_, ?_⟩ <;> rw [heq] <;> simp

/-- Witness for C2: the default Anthropic provider with an empty key. -/
theorem claim_C2_witness :
    getApiKey envEmptyKey.settings = ""
    ∧ generateTitle envEmptyKey =
      [.notice "Please set your Anthropic API key in the settings"] :=
  ⟨rfl, (claim_C2_empty_key envEmptyKey rfl).1⟩

/-- Claim C1: `generateTitle` requests at most one rename; a rename
appears in the trace only in the full success trace, after the HTTP
request, with the new path built from the sanitized title; and on any
failure (empty API key, no open file, or a provider error) no rename is
ever requested. -/
theorem claim_C1_rename_safety (env : GenerateEnv) :
    (generateTitle env).countP isRenameEvent ≤ 1
    ∧ (∀ o n, Event.rename o n ∈ generateTitle env →
        generateTitle env =
          [.readDocument, .notice "Generating title...", .httpRequest,
           .rename o n, .notice "Title updated successfully"]
        ∧ env.file = some o
        ∧ ∃ title, env.providerResult = .ok title ∧ title ≠ ""
            ∧ n = replaceLastSegment o (sanitizeFileName title ++ ".md"))
    ∧ ((getApiKey env.settings = "" ∨ env.file = none
        ∨ ∃ msg, env.providerResult = .error msg) →
        ∀ o n, Event.rename o n ∉ generateTitle env) := by
  by_cases hk : getApiKey env.settings = ""
  · refine ⟨?_, ?_, ?_⟩ <;> simp [generateTitle, hk, isRenameEvent]
  · rcases hf : env.file with _ | path
    · refine ⟨?_, ?_, ?_⟩ <;> simp [generateTitle, hk, hf, isRenameEvent]
    · rcases hr : env.providerResult with msg | title
      · refine ⟨?_, ?_, ?_⟩ <;> simp [generateTitle, hk, hf, hr, isRenameEvent]
      · by_cases ht : title = ""
        · refine ⟨?_, ?_, ?_⟩ <;> simp [generateTitle, hk, hf, hr, ht, isRenameEvent]
        · have htrace : generateTitle env =
              [.readDocument, .notice "Generating title...", .httpRequest,
               .rename path (replaceLastSegment path (sanitizeFileName title ++ ".md")),
               .notice "Title updated successfully"] := by
            simp [generateTitle, hk, hf, hr, ht]
          refine ⟨?_, ?_, ?_⟩
          · rw [htrace]
            simp [List.countP_cons, isRenameEvent]
          · intro o n hmem
            rw [htrace] at hmem
            simp only [List.mem_cons, List.not_mem_nil, or_false] at hmem
            rcases hmem with h | h | h | h | h
            · exact Event.noConfusion h
            · exact Event.noConfusion h
            · exact Event.noConfusion h
            · obtain ⟨ho, hn⟩ := Event.rename.inj h
              subst ho
              subst hn
              exact ⟨htrace, rfl, title, rfl, ht, rfl⟩
            · exact Event.noConfusion h
          · intro hfail
            rcases hfail with h | h | ⟨msg, h⟩
            · exact absurd h hk
            · exact Option.noConfusion h
            · exact Except.noConfusion h

/-- Witness for C1: a provider failure leads to a trace with no rename. -/
theorem claim_C1_witness :
    (generateTitle envProviderError).countP isRenameEvent ≤ 1
    ∧ Event.rename "dir/note.md" "dir/x.md" ∉ generateTitle envProviderError :=
  ⟨(claim_C1_rename_safety envProviderError).1,
   (claim_C1_rename_safety envProviderError).2.2 (Or.inr (Or.inr ⟨"boom", rfl⟩))
     "dir/note.md" "dir/x.md"⟩

/-- Counterexample to claim C8 as stated: the provider title `$&` passes
sanitization unchanged, but JavaScript `String.replace` treats `$&` in
the replacement string as "the matched text", so the requested new path
is `dir/note.md.md`, not `dir/$&.md`: the final segment is not replaced
by `<sanitized-title>.md`. -/
theorem claim_C8_counterexample :
    Event.rename "dir/note.md" "dir/note.md.md" ∈ generateTitle envDollarTitle
    ∧ "dir/note.md.md" ≠ "dir/" ++ sanitizeFileName "$&" ++ ".md" := by
  constructor <;> decide

/-- Claim C8 (amended): on success, when the sanitized title contains no
`$` (so the JS replacement template is inert) and the path has a nonempty
final segment, the requested new path is exactly the original directory
prefix followed by `<sanitized-title>.md`, and the original path
decomposes as that directory prefix plus its final segment (so every
character before the last `/` is unchanged). -/
theorem claim_C8_amended (env : GenerateEnv) (path title : String)
    (hk : getApiKey env.settings ≠ "") (hf : env.file = some path)
    (hr : env.providerResult = .ok title) (ht : title ≠ "")
    (hseg : lastSegment path ≠ [])
    (hd : '$' ∉ (sanitizeFileName title).data) :
    Event.rename path (String.mk (dirPrefix path ++ (sanitizeFileName title ++ ".md").data))
        ∈ generateTitle env
    ∧ path.data = dirPrefix path ++ lastSegment path := by
  have hd2 : '$' ∉ (sanitizeFileName title ++ ".md").data := by
    rw [data_append]
    simp only [List.mem_append]
    rintro (h | h)
    · exact hd h
    · exact absurd h (by decide)
  have hrepl := replaceLastSegment_eq path (sanitizeFileName title ++ ".md") hseg hd2
  constructor
  · simp [generateTitle, hk, hf, hr, ht, hrepl]
  · exact path_eq_dirPrefix_append path

/-- Witness for C8 (amended) with title `My Note` and path `dir/note.md`. -/
theorem claim_C8_witness :
    Event.rename "dir/note.md"
        (String.mk (dirPrefix "dir/note.md" ++ (sanitizeFileName "My Note" ++ ".md").data))
      ∈ generateTitle envGoodTitle
    ∧ "dir/note.md".data = dirPrefix "dir/note.md" ++ lastSegment "dir/note.md" :=
  claim_C8_amended envGoodTitle "dir/note.md" "My Note" (by decide) rfl rfl (by decide)
    (by decide) (by decide)

/-- Claim C10: the guard before the rename tests the raw provider title,
not the sanitized one: a non-empty title that sanitizes to the empty
string still triggers the rename, and the requested target is the
original directory followed by `.md` (an empty filename stem). -/
theorem claim_C10_raw_title_guard (env : GenerateEnv) (path title : String)
    (hk : getApiKey env.settings ≠ "") (hf : env.file = some path)
    (hr : env.providerResult = .ok title) (ht : title ≠ "")
    (hsan : sanitizeFileName title = "") (hseg : lastSegment path ≠ []) :
    generateTitle env =
      [.readDocument, .notice "Generating title...", .httpRequest,
       .rename path (String.mk (dirPrefix path ++ ".md".data)),
       .notice "Title updated successfully"] := by
  have hrepl : replaceLastSegment path (sanitizeFileName title ++ ".md")
      = String.mk (dirPrefix path ++ ".md".data) := by
    rw [hsan]
    exact replaceLastSegment_eq path ("" ++ ".md") hseg (by decide)
  simp [generateTitle, hk, hf, hr, ht, hrepl]

/-- Witness for C10: the title `???` is non-empty but sanitizes to the
empty string; the requested target is `dir/.md`. -/
theorem claim_C10_witness :
    sanitizeFileName "???" = ""
    ∧ generateTitle envAllInvalidTitle =
      [.readDocument, .notice "Generating title...", .httpRequest,
       .rename "dir/note.md" (String.mk (dirPrefix "dir/note.md" ++ ".md".data)),
       .notice "Title updated successfully"] :=
  ⟨by decide,
   claim_C10_raw_title_guard envAllInvalidTitle "dir/note.md" "???" (by decide) rfl rfl
     (by decide) (by decide) (by decide)⟩

end AITitle
